import Mathlib

/-!
Shallow embedding of the TextFSM engine of the SuperSSH repository
(`TextFsmEngine` in `nodes/SshTemplateParser/TextFsmEngine.ts`: the
`parseOutput`, `getOrCompile` and `coerceValue` methods, together with the
data model of `nodes/SshTemplateParser/types/template.ts` and
`nodes/SshTemplateParser/types/parser.ts`), followed by theorems settling
the specification claims about it.

JavaScript objects and `Map`s are modelled as association lists with
JS insertion-order semantics (`jsMapSet` updates in place, appends new
keys at the end).  The JS regex engine and the JS `Number` conversion are
external collaborators of this code and are abstracted as a `Platform`
parameter; a `RegExp` object is modelled by `JsRegex`, including the
`lastIndex` statefulness that `exec` has when the `g` or `y` flag is set.
Fallible code (`new RegExp` throwing, the `template.states[0]` access)
is modelled with `Except`.
-/

namespace Tfsm

/-- Association-list lookup, modelling JS `Map.get` / object property read
(first — and by construction only — binding for the key). -/
def jsMapGet {α : Type} : List (String × α) → String → Option α
  | [], _ => none
  | (k', v) :: rest, k => if k' = k then some v else jsMapGet rest k

/-- Association-list update, modelling JS `Map.set` / object property write:
an existing key keeps its position and gets the new value, a new key is
appended at the end (JS insertion-order semantics). -/
def jsMapSet {α : Type} : List (String × α) → String → α → List (String × α)
  | [], k, v => [(k, v)]
  | (k', v') :: rest, k, v =>
    if k' = k then (k, v) :: rest else (k', v') :: jsMapSet rest k v

/-- Modelling the JS `delete obj[key]` operation on an object. -/
def jsMapDelete {α : Type} (m : List (String × α)) (k : String) : List (String × α) :=
  m.filter (fun p => p.1 ≠ k)

/-- Runtime values stored in the working variable set: JS strings, numbers
(the engine only produces them through `coerceValue`), `undefined`
(capture groups that did not participate in a match), and arrays
(produced by `append` actions and by `list` coercion). -/
inductive Value where
  | str (s : String)
  | num (q : ℚ)
  | vUndefined
  | vlist (xs : List Value)

/-- Variable types of `types/template.ts` (`VariableType`).  Note the
source union is exactly `string | number | ip | mac | list`. -/
inductive VariableType where
  | string
  | number
  | ip
  | mac
  | list
deriving DecidableEq, Repr

/-- `Variable` of `types/template.ts` (the optional doc-only fields
`description` and `required` are carried but unused by the engine). -/
structure Variable where
  name : String
  pattern : String
  description : Option String := none
  required : Option Bool := none
  type : Option VariableType := none
deriving DecidableEq, Repr

/-- Transition condition (`when?: 'match' | 'always'`); the source string
`'match'` is rendered as `onMatch` because `match` is reserved in Lean. -/
inductive When where
  | onMatch
  | always
deriving DecidableEq, Repr

/-- `Transition` of `types/template.ts`; the source field `to` is rendered
`to_` because `to` is reserved in Lean. -/
structure Transition where
  to_ : String
  when : Option When := none
deriving DecidableEq, Repr

/-- `ActionType` of `types/template.ts`. -/
inductive ActionType where
  | emit
  | set
  | clear
  | append
deriving DecidableEq, Repr

/-- `Action` of `types/template.ts`; the source field `variable` is
rendered `var` because `variable` is reserved in Lean. -/
structure Action where
  type : ActionType
  var : Option String := none
  fromGroup : Option String := none
  value : Option String := none
deriving DecidableEq, Repr

/-- `StatePattern` of `types/template.ts`; the group-rename `map` is an
association list. -/
structure StatePattern where
  regex : String
  map : Option (List (String × String)) := none
  flags : Option String := none
  actions : Option (List Action) := none
  transition : Option Transition := none
deriving DecidableEq, Repr

/-- `State` of `types/template.ts`. -/
structure State where
  name : String
  patterns : List StatePattern
deriving DecidableEq, Repr

/-- `Template` of `types/template.ts` (metadata fields not read by the
engine are carried as plain strings / options; `metadata` is omitted as
the engine never touches it).  The source field `variables` is rendered
`vars` because `variables` is reserved in Lean. -/
structure Template where
  id : String
  name : String
  description : Option String := none
  vendor : String := "generic"
  deviceOs : Option String := none
  command : Option String := none
  vars : Option (List Variable) := none
  states : List State
deriving DecidableEq, Repr

/-- Result of a successful regex match: the end position of the match in
the subject string (JS `lastIndex` is set to it for `g`/`y` regexes) and
the `groups` object — every named capture group declared in the regex, in
declaration order, with `none` for groups that did not participate. -/
structure MatchRes where
  endPos : Nat
  groups : List (String × Option String)

/-- Model of a JS `RegExp` object: `stateful` records whether the flags
contain `g` or `y` (in which case `exec` reads and writes `lastIndex`),
and `matchAt s i` is the engine's attempt to match the subject `s`
starting the search at index `i`. -/
structure JsRegex where
  stateful : Bool
  lastIndex : Nat
  matchAt : String → Nat → Option MatchRes

/-- External collaborators of the engine: the platform regex engine
(`build` models `new RegExp(source, flags)`, failing with the engine's
raw error message exactly when the source/flags are invalid) and the JS
`Number` conversion (`jsNumber s = none` models `Number(s)` being `NaN`). -/
structure Platform where
  build : String → Option String → Except String (String → Nat → Option MatchRes)
  jsNumber : String → Option ℚ

/-- Whether a flags string makes `exec` stateful (`g` or `y` present). -/
def flagsStateful : Option String → Bool
  | none => false
  | some f => f.toList.contains 'g' || f.toList.contains 'y'

/-- JS `RegExp.prototype.exec`: a non-stateful regex searches from the
start of the subject and leaves the object unchanged; a `g`/`y` regex
starts from `lastIndex`, sets it to the match end on success and resets
it to 0 on failure. -/
def execRegex (r : JsRegex) (s : String) : Option (List (String × Option String)) × JsRegex :=
  if r.stateful then
    match r.matchAt s r.lastIndex with
    | some res => (some res.groups, { r with lastIndex := res.endPos })
    | none => (none, { r with lastIndex := 0 })
  else
    ((r.matchAt s 0).map MatchRes.groups, r)

/-- `CompiledPattern` of `types/parser.ts`. -/
structure CompiledPattern where
  regex : JsRegex
  map : Option (List (String × String)) := none
  actions : Option (List Action) := none
  transition : Option Transition := none

/-- `CompiledState` of `types/parser.ts`. -/
structure CompiledState where
  name : String
  patterns : List CompiledPattern

/-- `CompiledTemplate` of `types/parser.ts`; `states` is the JS `Map`
from state name to compiled state. -/
structure CompiledTemplate where
  template : Template
  states : List (String × CompiledState)
  startState : String

/-- The engine's compiled-template cache (`compiledCache`), a JS `Map`
keyed by template id. -/
abbrev Cache : Type := List (String × CompiledTemplate)

/-- One compiled pattern of `getOrCompile`: the regex source and flags are
handed verbatim to the platform engine; `map`, `actions` and `transition`
are carried over. -/
def compilePatterns (P : Platform) : List StatePattern → Except String (List CompiledPattern)
  | [] => .ok []
  | p :: ps => do
    let m ← P.build p.regex p.flags
    let rest ← compilePatterns P ps
    .ok ({ regex := { stateful := flagsStateful p.flags, lastIndex := 0, matchAt := m },
           map := p.map, actions := p.actions, transition := p.transition } :: rest)

/-- The state-compilation loop of `getOrCompile`
(`for (const s of template.states) { ... states.set(s.name, ...) }`). -/
def compileStates (P : Platform) : List State → List (String × CompiledState) →
    Except String (List (String × CompiledState))
  | [], acc => .ok acc
  | s :: rest, acc => do
    let cps ← compilePatterns P s.patterns
    compileStates P rest (jsMapSet acc s.name { name := s.name, patterns := cps })

/-- `TextFsmEngine.getOrCompile`: cache hit returns the cached compiled
template unchanged; on a miss the states are compiled (the first invalid
regex makes the platform error propagate unwrapped, and nothing is
cached), the start state is `states[0].name` (an empty `states` list is
the JS `TypeError` thrown by reading `.name` of `undefined`), and the
result is cached under the template id. -/
def getOrCompile (P : Platform) (cache : Cache) (t : Template) :
    Except String (CompiledTemplate × Cache) :=
  match jsMapGet cache t.id with
  | some c => .ok (c, cache)
  | none => do
    let states ← compileStates P t.states []
    match t.states with
    | [] => .error "TypeError: cannot read name of undefined"
    | s0 :: _ =>
      let compiled : CompiledTemplate :=
        { template := t, states := states, startState := s0.name }
      .ok (compiled, jsMapSet cache t.id compiled)

/-- `EngineOptions` of the engine module (all default to the JS falsy
`undefined`). -/
structure EngineOptions where
  debug : Bool := false
  resetOnEmit : Bool := false
  coerceTypes : Bool := false
deriving DecidableEq, Repr

/-- JS splitting of the input on the regex `\r?\n`: line boundaries are
`\r\n` (taken as one separator) or a lone `\n`; a lone `\r` does not
separate.  The JS `String.prototype.split` always yields at least one
piece (the empty string splits to `[""]`). -/
def splitChars : List Char → List Char → List (List Char)
  | acc, [] => [acc.reverse]
  | acc, '\r' :: '\n' :: rest => acc.reverse :: splitChars [] rest
  | acc, '\n' :: rest => acc.reverse :: splitChars [] rest
  | acc, c :: rest => splitChars (c :: acc) rest

/-- The line split of `parseOutput` (`output.split(/\r?\n/)`). -/
def splitLines (s : String) : List String :=
  (splitChars [] s.toList).map List.asString

/-- The variable index of `parseOutput` (`new Map` filled from
`template.variables || []`; a duplicate name keeps the later entry). -/
def mkVariableIndex (vs : Option (List Variable)) : List (String × Variable) :=
  (vs.getD []).foldl (fun m v => jsMapSet m v.name v) []

/-- JS whitespace for `String.prototype.trim` (restricted to the ASCII
whitespace the templates can contain). -/
def jsWhitespace (c : Char) : Bool :=
  c = ' ' || c = '\t' || c = '\n' || c = '\r'

/-- The trim of each comma piece in the `list` coercion (`s.trim()`). -/
def jsTrimChars (cs : List Char) : List Char :=
  ((cs.dropWhile jsWhitespace).reverse.dropWhile jsWhitespace).reverse

/-- JS `String.prototype.split(',')` on the character list. -/
def splitOnComma : List Char → List Char → List (List Char)
  | acc, [] => [acc.reverse]
  | acc, ',' :: rest => acc.reverse :: splitOnComma [] rest
  | acc, c :: rest => splitOnComma (c :: acc) rest

/-- `TextFsmEngine.coerceValue`: `number`-typed variables go through the
JS `Number` conversion keeping the raw string on `NaN`; `list`-typed
variables are split on commas, each piece trimmed, empty pieces dropped;
every other declared type, an untyped declaration, or an undeclared
variable passes the raw string through unchanged. -/
def coerceValue (P : Platform) (name : String) (raw : String)
    (index : List (String × Variable)) : Value :=
  match jsMapGet index name with
  | none => .str raw
  | some vdef =>
    match vdef.type with
    | none => .str raw
    | some .number =>
      match P.jsNumber raw with
      | none => .str raw
      | some n => .num n
    | some .list =>
      .vlist ((((splitOnComma [] raw.toList).map jsTrimChars).filter
        (fun cs => 0 < cs.length)).map (fun cs => .str cs.asString))
    | some _ => .str raw

/-- Truthiness of an optional JS string (`undefined` and `""` are falsy). -/
def truthy : Option String → Bool
  | none => false
  | some s => s ≠ ""

/-- The group-to-variable rename of the binding loop
(`pattern.map?.[groupName] || groupName`): a missing map, a missing entry,
or a falsy (empty) mapped name fall back to the group name. -/
def mapName (pmap : Option (List (String × String))) (g : String) : String :=
  match pmap with
  | none => g
  | some m =>
    match jsMapGet m g with
    | none => g
    | some v => if v = "" then g else v

/-- A plain (uncoerced) working-set value from an optional capture:
a participating group binds its string, `undefined` binds as-is. -/
def plainVal : Option String → Value
  | some s => .str s
  | none => .vUndefined

/-- Value stored by the capture-group binding loop
(`working[varName] = options.coerceTypes ? this.coerceValue(varName, value as string, ...) : value`).
When the group did not participate the bound value is `undefined`: the
TS cast passes `undefined` to `coerceValue`, where `Number(undefined)` is
`NaN` so the `number` and default branches return it unchanged (a
`list`-typed variable would throw on `undefined.split`; no verified
property depends on that path and it is modelled as `undefined` too). -/
def groupBindVal (P : Platform) (opts : EngineOptions)
    (index : List (String × Variable)) (varName : String) : Option String → Value
  | some s => if opts.coerceTypes then coerceValue P varName s index else .str s
  | none => .vUndefined

/-- The capture-group binding loop of `parseOutput`
(`for (const [groupName, value] of Object.entries(groups)) ...`). -/
def bindGroups (P : Platform) (opts : EngineOptions)
    (index : List (String × Variable)) (pmap : Option (List (String × String)))
    (working : List (String × Value)) (groups : List (String × Option String)) :
    List (String × Value) :=
  groups.foldl
    (fun w gv => jsMapSet w (mapName pmap gv.1) (groupBindVal P opts index (mapName pmap gv.1) gv.2))
    working

/-- The source of an action value
(`action.fromGroup ? groups[action.fromGroup] : action.value`); a truthy
`fromGroup` naming an absent group yields `undefined`. -/
def actionSourceVal (groups : List (String × Option String)) (a : Action) : Option String :=
  match a.fromGroup with
  | some g => if g = "" then a.value else (jsMapGet groups g).join
  | none => a.value

/-- Value stored by a `set`/`append` action
(`options.coerceTypes ? this.coerceValue(variable, String(value ?? ''), ...) : value`). -/
def actionVal (P : Platform) (opts : EngineOptions) (index : List (String × Variable))
    (varName : String) (v : Option String) : Value :=
  if opts.coerceTypes then coerceValue P varName (v.getD "") index else plainVal v

/-- One action of the action loop of `parseOutput`, acting on the pair of
the working set and the emitted records.  `set` overwrites, `clear`
deletes the key, `append` is the three-way branch on the current value
(array: push; `undefined`/absent: fresh one-element array; otherwise:
two-element array of old and new), `emit` pushes a shallow copy of the
working set and, with `resetOnEmit`, empties it afterwards.  `set`,
`clear` and `append` are guarded by a truthy `action.variable`. -/
def execAction (P : Platform) (opts : EngineOptions) (index : List (String × Variable))
    (groups : List (String × Option String))
    (st : List (String × Value) × List (List (String × Value))) (a : Action) :
    List (String × Value) × List (List (String × Value)) :=
  match a.type with
  | .set =>
    if truthy a.var then
      (jsMapSet st.1 (a.var.getD "") (actionVal P opts index (a.var.getD "") (actionSourceVal groups a)), st.2)
    else st
  | .clear =>
    if truthy a.var then (jsMapDelete st.1 (a.var.getD ""), st.2) else st
  | .append =>
    if truthy a.var then
      (let v := a.var.getD ""
       let fv := actionVal P opts index v (actionSourceVal groups a)
       match jsMapGet st.1 v with
       | some (.vlist xs) => (jsMapSet st.1 v (.vlist (xs ++ [fv])), st.2)
       | some .vUndefined => (jsMapSet st.1 v (.vlist [fv]), st.2)
       | none => (jsMapSet st.1 v (.vlist [fv]), st.2)
       | some w => (jsMapSet st.1 v (.vlist [w, fv]), st.2))
    else st
  | .emit =>
    ((if opts.resetOnEmit then [] else st.1), st.2 ++ [st.1])

/-- One entry of the debug trace
(`{ line, state: currentStateName, matched, matchedIdx }`, pushed after
the transition was applied, so `state` is the post-transition name). -/
structure TraceEntry where
  line : String
  state : String
  matched : Bool
  matchedIdx : Int
deriving DecidableEq, Repr

/-- The matched pattern of the inner loop: its index within the state's
pattern list, the match's `groups`, and the pattern (with its regex state
as updated by the successful `exec`). -/
structure MatchOut where
  idx : Nat
  groups : List (String × Option String)
  pattern : CompiledPattern

/-- The inner pattern loop of `parseOutput`: patterns are tried in list
order, each attempt updating that pattern's regex state; the loop stops
at the first successful `exec` (later patterns are not touched).  Returns
the pattern list with the updated regex states and the first match, if
any. -/
def innerLoop (line : String) : List CompiledPattern →
    List CompiledPattern × Option MatchOut
  | [] => ([], none)
  | p :: ps =>
    let er := execRegex p.regex line
    match er.1 with
    | some gs =>
      ({ p with regex := er.2 } :: ps, some ⟨0, gs, { p with regex := er.2 }⟩)
    | none =>
      let rest := innerLoop line ps
      ({ p with regex := er.2 } :: rest.1,
       rest.2.map (fun o => { o with idx := o.idx + 1 }))

/-- The mutable locals of the `parseOutput` line loop. -/
structure LoopSt where
  states : List (String × CompiledState)
  currentStateName : String
  working : List (String × Value)
  records : List (List (String × Value))
  linesProcessed : Nat
  matchCount : Nat
  errors : List String
  trace : List TraceEntry

/-- Effects of a matched pattern before its transition: the capture
groups are bound into the working set, the actions run in list order, and
the match counter is incremented. -/
def applyMatchEffects (P : Platform) (opts : EngineOptions)
    (index : List (String × Variable)) (st : LoopSt) (o : MatchOut) : LoopSt :=
  let w1 := bindGroups P opts index o.pattern.map st.working o.groups
  let wr := (o.pattern.actions.getD []).foldl (execAction P opts index o.groups) (w1, st.records)
  { st with working := wr.1, records := wr.2, matchCount := st.matchCount + 1 }

/-- The transition step of a matched pattern.  The `when` guard of the
source (`always`, `undefined` or `match`) is exhaustive over the declared
transition type.  `self` keeps the state, `end` sets `linesProcessed` to
the total line count and breaks — but only out of the inner pattern loop,
so the line loop carries on — and any other name becomes the current
state. -/
def applyTransition (totalLines : Nat) (st : LoopSt) : Option Transition → LoopSt
  | none => st
  | some t =>
    if t.to_ = "self" then st
    else if t.to_ = "end" then { st with linesProcessed := totalLines }
    else { st with currentStateName := t.to_ }

/-- The debug-trace push at the end of a line iteration. -/
def pushTrace (opts : EngineOptions) (st : LoopSt) (line : String)
    (out : Option MatchOut) : LoopSt :=
  if opts.debug then
    { st with trace := st.trace ++
        [{ line := line, state := st.currentStateName, matched := out.isSome,
           matchedIdx := (match out with | some o => (o.idx : Int) | none => -1) }] }
  else st

/-- One line iteration once the current state was found: run the inner
pattern loop, store the updated pattern states back into the state table,
apply the first match's bindings, actions and transition (if any line
matched), and push the debug trace entry. -/
def processLine (P : Platform) (opts : EngineOptions) (index : List (String × Variable))
    (totalLines : Nat) (st : LoopSt) (line : String) (state : CompiledState) : LoopSt :=
  let il := innerLoop line state.patterns
  let newStates := jsMapSet st.states st.currentStateName { state with patterns := il.1 }
  let st1 := { st with states := newStates }
  let st2 :=
    match il.2 with
    | none => st1
    | some o => applyTransition totalLines (applyMatchEffects P opts index st1 o) o.pattern.transition
  pushTrace opts st2 line il.2

/-- The `for (const line of lines)` loop of `parseOutput`: each line first
bumps `linesProcessed`; an unknown current state appends the error and
breaks out of the loop; otherwise the line is processed and the loop
continues with the next line. -/
def runLines (P : Platform) (opts : EngineOptions) (index : List (String × Variable))
    (totalLines : Nat) : List String → LoopSt → LoopSt
  | [], st => st
  | line :: rest, st =>
    let st1 := { st with linesProcessed := st.linesProcessed + 1 }
    match jsMapGet st1.states st1.currentStateName with
    | none => { st1 with errors := st1.errors ++ ["Unknown state: " ++ st1.currentStateName] }
    | some state =>
      runLines P opts index totalLines rest (processLine P opts index totalLines st1 line state)

/-- `meta` of the parse result. -/
structure ParseMeta where
  linesProcessed : Nat
  matchCount : Nat
  errors : Option (List String)
deriving Repr

/-- `ParsedResult` of `types/template.ts`, together with the optional
debug `trace` the engine adds. -/
structure ParsedResult where
  templateId : String
  templateName : String
  records : List (List (String × Value))
  meta : ParseMeta
  trace : Option (List TraceEntry)

/-- The initial loop state of `parseOutput` (working set, records, and
counters all empty; the current state is the compiled start state). -/
def initLoopSt (c : CompiledTemplate) : LoopSt :=
  { states := c.states, currentStateName := c.startState, working := [],
    records := [], linesProcessed := 0, matchCount := 0, errors := [], trace := [] }

/-- The result value built at the end of `parseOutput` (`errors` appears
in `meta` only when non-empty; `trace` only under `debug`). -/
def mkParsedResult (t : Template) (opts : EngineOptions) (fin : LoopSt) : ParsedResult :=
  { templateId := t.id, templateName := t.name, records := fin.records,
    meta := { linesProcessed := fin.linesProcessed, matchCount := fin.matchCount,
              errors := if fin.errors = [] then none else some fin.errors },
    trace := if opts.debug then some fin.trace else none }

/-- `TextFsmEngine.parseOutput`: obtain (or compile and cache) the
compiled template, split the input into lines, run the line loop from the
start state, and return the result together with the engine cache — whose
entry for this template id now carries the regex states as mutated by the
run (in the source this happens by in-place mutation of the cached
`RegExp` objects). -/
def parseOutput (P : Platform) (cache : Cache) (output : String) (t : Template)
    (opts : EngineOptions) : Except String (ParsedResult × Cache) := do
  let (compiled, cache1) ← getOrCompile P cache t
  let lines := splitLines output
  let index := mkVariableIndex t.vars
  let fin := runLines P opts index lines.length lines (initLoopSt compiled)
  .ok (mkParsedResult t opts fin,
       jsMapSet cache1 t.id { compiled with states := fin.states })

/-- Observation of a parse call: just the parse result, if the call did
not throw. -/
def parseResult? (P : Platform) (cache : Cache) (output : String) (t : Template)
    (opts : EngineOptions) : Option ParsedResult :=
  match parseOutput P cache output t opts with
  | .ok rc => some rc.1
  | .error _ => none

/-- Observation of two successive parse calls on the same engine: the
second call runs on the cache left by the first, as repeated calls on one
engine instance do. -/
def parse2Results (P : Platform) (cache : Cache) (output : String) (t : Template)
    (opts : EngineOptions) : Option (ParsedResult × ParsedResult) :=
  match parseOutput P cache output t opts with
  | .error _ => none
  | .ok (r1, c1) =>
    match parseOutput P c1 output t opts with
    | .error _ => none
    | .ok (r2, _) => some (r1, r2)

/-! Concrete platform and template instances used to evaluate the engine
at specific inputs. -/

/-- A literal matcher: the regex source matches exactly when the whole
subject equals it and the search starts at 0, with no named groups
(a stand-in for an anchored literal regex). -/
def litMatcher (src : String) : String → Nat → Option MatchRes :=
  fun s i => if i == 0 && s == src then some { endPos := src.length, groups := [] } else none

/-- A platform whose regex engine compiles every source to the literal
matcher and whose `Number` conversion always yields `NaN`. -/
def litPlatform : Platform :=
  { build := fun src _ => .ok (litMatcher src), jsNumber := fun _ => none }

/-- An action record carrying just `emit`. -/
def emitAction : Action := { type := .emit }

/-- Single-state template: the one pattern matches the line `a`, emits a
record and transitions to `end`. -/
def endTemplate : Template :=
  { id := "tend", name := "end-demo",
    states := [ { name := "start",
                  patterns := [ { regex := "a", actions := some [emitAction],
                                  transition := some { to_ := "end" } } ] } ] }

/-- Single-state template whose one pattern uses the `g` flag (a stateful
regex), matches the line `a` and emits a record. -/
def gTemplate : Template :=
  { id := "tg", name := "g-demo",
    states := [ { name := "start",
                  patterns := [ { regex := "a", flags := some "g",
                                  actions := some [emitAction] } ] } ] }

/-- Single-state template whose one pattern matches the line `a`, emits a
record and transitions to the non-existent state `nope`. -/
def nopeTemplate : Template :=
  { id := "tn", name := "nope-demo",
    states := [ { name := "s1",
                  patterns := [ { regex := "a", actions := some [emitAction],
                                  transition := some { to_ := "nope" } } ] } ] }

/-- A platform whose regex engine rejects the sources `(` and `[` with
fixed error messages and compiles everything else to the literal matcher. -/
def errPlatform : Platform :=
  { build := fun src _ =>
      if src = "(" then .error "bad regex syntax"
      else if src = "[" then .error "unterminated class"
      else .ok (litMatcher src),
    jsNumber := fun _ => none }

/-- Template whose single state `stateA` holds one pattern with the
invalid regex source `(`. -/
def badTemplate : Template :=
  { id := "tb", name := "bad", states := [ { name := "stateA", patterns := [ { regex := "(" } ] } ] }

/-- Template whose single state `s0` holds one pattern with the invalid
regex source `[`. -/
def badTemplate2 : Template :=
  { id := "tb2", name := "bad2", states := [ { name := "s0", patterns := [ { regex := "[" } ] } ] }

/-- A regex object that never matches. -/
def noMatchRegex : JsRegex :=
  { stateful := false, lastIndex := 0, matchAt := fun _ _ => none }

/-- A regex object that always matches with the single named group `x`
bound to `v`. -/
def allMatchRegex : JsRegex :=
  { stateful := false, lastIndex := 0,
    matchAt := fun _ _ => some { endPos := 0, groups := [("x", some "v")] } }

/-- A compiled pattern that never matches. -/
def pFail : CompiledPattern := { regex := noMatchRegex }

/-- A compiled pattern that always matches. -/
def pHit : CompiledPattern := { regex := allMatchRegex }

/-- A second always-matching compiled pattern, with an `emit` action. -/
def pTail : CompiledPattern := { regex := allMatchRegex, actions := some [emitAction] }

/-- Whether the first list starts with the second one. -/
def hasPref : List Char → List Char → Bool
  | _, [] => true
  | [], _ :: _ => false
  | c :: cs, d :: ds => c == d && hasPref cs ds

/-- Whether the second list occurs inside the first one. -/
def hasSub : List Char → List Char → Bool
  | [], n => n.isEmpty
  | c :: t, n => hasPref (c :: t) n || hasSub t n

/-- A platform like `litPlatform` whose `Number` conversion recognises
exactly the string `42`. -/
def numPlatform : Platform :=
  { build := fun src _ => .ok (litMatcher src),
    jsNumber := fun s => if s = "42" then some (42 : ℚ) else none }

/-- Variable index declaring `n` as a `number`-typed variable. -/
def numVarIndex : List (String × Variable) :=
  [("n", { name := "n", pattern := "", type := some VariableType.number })]

/-- Variable index declaring `l` as a `list`-typed variable. -/
def listVarIndex : List (String × Variable) :=
  [("l", { name := "l", pattern := "", type := some VariableType.list })]

/-- Variable index declaring `s` as a `string`-typed variable. -/
def strVarIndex : List (String × Variable) :=
  [("s", { name := "s", pattern := "", type := some VariableType.string })]

/-- No action of the list is a `clear` of the variable `v`. -/
abbrev NoClearOn (v : String) (acts : List Action) : Prop :=
  ∀ a ∈ acts, ¬(a.type = ActionType.clear ∧ a.var = some v)

/-- No pattern of any state of the table carries a `clear` action of `v`. -/
abbrev NoClearStates (v : String) (states : List (String × CompiledState)) : Prop :=
  ∀ e ∈ states, ∀ p ∈ e.2.patterns, NoClearOn v (p.actions.getD [])

/-- Every compiled regex of the state table is non-stateful (no `g`/`y`). -/
abbrev NonStatefulStates (states : List (String × CompiledState)) : Prop :=
  ∀ e ∈ states, ∀ p ∈ e.2.patterns, p.regex.stateful = false

/-- No pattern of the template uses the `g` or `y` flag. -/
abbrev NonStatefulTemplate (t : Template) : Prop :=
  ∀ s ∈ t.states, ∀ p ∈ s.patterns, flagsStateful p.flags = false

/-- A loop state stuck in the non-existent state `nope`, with one record
already emitted and a variable in the working set. -/
def unknownStLoop : LoopSt :=
  { states := [], currentStateName := "nope", working := [("a", .str "1")],
    records := [[("a", .str "1")]], linesProcessed := 5, matchCount := 1,
    errors := [], trace := [] }

/-- The compiled form of `nopeTemplate` on `litPlatform`. -/
def nopeCompiled : CompiledTemplate :=
  { template := nopeTemplate,
    states := [("s1",
      { name := "s1",
        patterns := [ { regex := { stateful := false, lastIndex := 0, matchAt := litMatcher "a" },
                        map := none, actions := some [emitAction],
                        transition := some { to_ := "nope" } } ] })],
    startState := "s1" }

/-- A loop state in a one-state table whose single pattern always matches
and emits, with the variable `host` already in the working set. -/
def c5LoopSt : LoopSt :=
  { states := [("start", { name := "start", patterns := [pTail] })],
    currentStateName := "start", working := [("host", .str "h1")],
    records := [], linesProcessed := 0, matchCount := 0, errors := [], trace := [] }

/-- First result of the double parse of `gTemplate` (the `g`-flagged
template) on the input `a`: the line matches and one record is emitted. -/
def c8r1 : ParsedResult :=
  { templateId := "tg", templateName := "g-demo", records := [[]],
    meta := { linesProcessed := 1, matchCount := 1, errors := none }, trace := none }

/-- Second result of the same double parse: the cached regex kept
`lastIndex = 1` from the first call, so the same line no longer matches. -/
def c8r2 : ParsedResult :=
  { templateId := "tg", templateName := "g-demo", records := [],
    meta := { linesProcessed := 1, matchCount := 0, errors := none }, trace := none }

/-- Single-state template with a flagless pattern matching `a` and
emitting a record. -/
def plainTemplate : Template :=
  { id := "tp", name := "plain",
    states := [ { name := "start",
                  patterns := [ { regex := "a", actions := some [emitAction] } ] } ] }

/-- The compiled form of `plainTemplate` on `litPlatform`. -/
def plainCompiled : CompiledTemplate :=
  { template := plainTemplate,
    states := [("start",
      { name := "start",
        patterns := [ { regex := { stateful := false, lastIndex := 0, matchAt := litMatcher "a" },
                        map := none, actions := some [emitAction], transition := none } ] })],
    startState := "start" }

/-- The engine cache after one parse of `plainTemplate`. -/
def plainCache1 : Cache := [("tp", plainCompiled)]

/-- The parse result of `plainTemplate` on the input `a`. -/
def plainR1 : ParsedResult :=
  { templateId := "tp", templateName := "plain", records := [[]],
    meta := { linesProcessed := 1, matchCount := 1, errors := none }, trace := none }

end Tfsm

namespace Tfsm

/-! Helper lemmas about the JS map model. -/

theorem jsMapGet_set_self {α : Type} (m : List (String × α)) (k : String) (v : α) :
    jsMapGet (jsMapSet m k v) k = some v := by
  induction m with
  | nil => simp [jsMapSet, jsMapGet]
  | cons hd tl ih =>
    by_cases h : hd.1 = k
    · simp [jsMapSet, jsMapGet, h]
    · simp [jsMapSet, jsMapGet, h, ih]

theorem jsMapGet_set_ne {α : Type} (m : List (String × α)) (k k' : String) (v : α)
    (h : k' ≠ k) : jsMapGet (jsMapSet m k v) k' = jsMapGet m k' := by
  induction m with
  | nil => simp [jsMapSet, jsMapGet, Ne.symm h]
  | cons hd tl ih =>
    obtain ⟨k0, v0⟩ := hd
    by_cases hk : k0 = k
    · simp [jsMapSet, jsMapGet, hk, Ne.symm h]
    · simp [jsMapSet, jsMapGet, hk, ih]

theorem jsMapSet_same {α : Type} (m : List (String × α)) (k : String) (v : α)
    (h : jsMapGet m k = some v) : jsMapSet m k v = m := by
  induction m with
  | nil => simp [jsMapGet] at h
  | cons hd tl ih =>
    obtain ⟨k0, v0⟩ := hd
    by_cases hk : k0 = k
    · simp [jsMapGet, hk] at h
      simp [jsMapSet, hk, h]
    · simp [jsMapGet, hk] at h
      simp [jsMapSet, hk, ih h]

theorem jsMapGet_isSome_set {α : Type} (m : List (String × α)) (k x : String) (v : α)
    (h : (jsMapGet m x).isSome) : (jsMapGet (jsMapSet m k v) x).isSome := by
  by_cases hx : x = k
  · subst hx; simp [jsMapGet_set_self]
  · rwa [jsMapGet_set_ne m k x v hx]

theorem jsMapGet_delete_ne {α : Type} (m : List (String × α)) (k x : String)
    (h : x ≠ k) : jsMapGet (jsMapDelete m k) x = jsMapGet m x := by
  induction m with
  | nil => simp [jsMapDelete, jsMapGet]
  | cons hd tl ih =>
    obtain ⟨k0, v0⟩ := hd
    by_cases hk : k0 = k
    · subst hk
      have hx0 : ¬ k0 = x := fun hh => h hh.symm
      simp [jsMapDelete, jsMapGet, List.filter_cons, hx0] at ih ⊢
      exact ih
    · by_cases hx : k0 = x
      · subst hx
        simp [jsMapDelete, jsMapGet, List.filter_cons, hk]
      · simp [jsMapDelete, jsMapGet, List.filter_cons, hk, hx] at ih ⊢
        exact ih

theorem jsMapSet_mem {α : Type} (m : List (String × α)) (k : String) (v : α)
    (p : String × α) (h : p ∈ jsMapSet m k v) : p = (k, v) ∨ p ∈ m := by
  induction m with
  | nil => simp [jsMapSet] at h; simp [h]
  | cons hd tl ih =>
    obtain ⟨k0, v0⟩ := hd
    by_cases hk : k0 = k
    · simp [jsMapSet, hk] at h
      rcases h with h | h
      · left; simp [h]
      · right; simp [h]
    · simp [jsMapSet, hk] at h
      rcases h with h | h
      · right; simp [h]
      · rcases ih h with h2 | h2
        · left; exact h2
        · right; simp [h2]

theorem jsMapGet_mem {α : Type} (m : List (String × α)) (k : String) (v : α)
    (h : jsMapGet m k = some v) : (k, v) ∈ m := by
  induction m with
  | nil => simp [jsMapGet] at h
  | cons hd tl ih =>
    obtain ⟨k0, v0⟩ := hd
    by_cases hk : k0 = k
    · simp [jsMapGet, hk] at h
      subst hk
      subst h
      exact List.mem_cons_self _ _
    · simp [jsMapGet, hk] at h
      exact List.mem_cons_of_mem _ (ih h)

/-! Helper lemmas about the engine primitives. -/

theorem bindGroups_cons (P : Platform) (opts : EngineOptions)
    (index : List (String × Variable)) (pmap : Option (List (String × String)))
    (w : List (String × Value)) (gv : String × Option String)
    (gs : List (String × Option String)) :
    bindGroups P opts index pmap w (gv :: gs) =
      bindGroups P opts index pmap
        (jsMapSet w (mapName pmap gv.1) (groupBindVal P opts index (mapName pmap gv.1) gv.2)) gs :=
  rfl

theorem bindGroups_get_notmem (P : Platform) (opts : EngineOptions)
    (index : List (String × Variable)) (pmap : Option (List (String × String)))
    (w : List (String × Value)) (groups : List (String × Option String)) (name : String)
    (hn : name ∉ groups.map (fun gv => mapName pmap gv.1)) :
    jsMapGet (bindGroups P opts index pmap w groups) name = jsMapGet w name := by
  induction groups generalizing w with
  | nil => rfl
  | cons gv gs ih =>
    simp only [List.map_cons, List.mem_cons, not_or] at hn
    rw [bindGroups_cons, ih _ hn.2, jsMapGet_set_ne _ _ _ _ hn.1]

theorem groupBindVal_plain (P : Platform) (opts : EngineOptions)
    (index : List (String × Variable)) (n : String) (v : Option String)
    (hco : opts.coerceTypes = false) :
    groupBindVal P opts index n v = plainVal v := by
  cases v <;> simp [groupBindVal, plainVal, hco]

/-! Claim theorems. -/

/-- C1: the claim says a matched `to == "end"` transition stops processing
entirely — no later line is matched, no further record is emitted, and
`linesProcessed` equals the total line count.  The code violates this: the
`break` of the `end` branch only exits the inner pattern loop, so the
line loop continues.  On the two-line input `a\na` against a template
whose single pattern matches `a`, emits and transitions to `end`, the
engine matches line 2 as well and emits a second record
(`records = [[], []]`, `matchCount = 2`), where the claim demands a single
record.  (The earlier in-repo version of the engine annotates this very
branch with `// stop processing entirely`, so the loop exit is the
documented intent and the code is the slip.) -/
theorem claim_C1_end_transition_bug :
    parseResult? litPlatform [] "a\na" endTemplate {} =
      some { templateId := "tend", templateName := "end-demo", records := [[], []],
             meta := { linesProcessed := 2, matchCount := 2, errors := none },
             trace := none } := rfl

/-- C2: patterns of the current state are tried in list order and exactly
the first pattern whose regex matches wins: the inner pattern loop
returns the first matching pattern (with the match's groups and the
pattern's index) and every pattern after it is returned untouched — it is
never evaluated against the line. -/
theorem claim_C2_first_match_wins (line : String) (ps1 ps2 : List CompiledPattern)
    (p : CompiledPattern) (gs : List (String × Option String)) (r' : JsRegex)
    (h1 : ∀ q ∈ ps1, (execRegex q.regex line).1 = none)
    (h2 : execRegex p.regex line = (some gs, r')) :
    innerLoop line (ps1 ++ p :: ps2) =
      (ps1.map (fun q => { q with regex := (execRegex q.regex line).2 }) ++
        { p with regex := r' } :: ps2,
       some ⟨ps1.length, gs, { p with regex := r' }⟩) := by
  induction ps1 with
  | nil => simp [innerLoop, h2]
  | cons q qs ih =>
    have hq : (execRegex q.regex line).1 = none := h1 q (List.mem_cons_self _ _)
    have ihh := ih (fun r hr => h1 r (List.mem_cons_of_mem _ hr))
    simp [innerLoop, hq, ihh]

/-- C2 witness: with a first pattern that fails and a second that matches,
the inner loop selects the second pattern and leaves the third untouched. -/
theorem claim_C2_first_match_wins_witness :
    innerLoop "L" ([pFail] ++ pHit :: [pTail]) =
      ([pFail].map (fun q => { q with regex := (execRegex q.regex "L").2 }) ++
        { pHit with regex := allMatchRegex } :: [pTail],
       some ⟨[pFail].length, [("x", some "v")], { pHit with regex := allMatchRegex }⟩) :=
  claim_C2_first_match_wins "L" [pFail] [pTail] pHit [("x", some "v")] allMatchRegex
    (fun q hq => by rw [List.mem_singleton] at hq; subst hq; rfl) rfl

/-- C4 counterexample: the claim says compilation of an invalid pattern
fails with an `InvalidPatternError` identifying the offending state name,
the pattern index within that state, and the engine's message.  The code
has no such wrapping: `getOrCompile` propagates the raw engine error
verbatim, which here mentions neither the state name `stateA` nor the
pattern index `0`. -/
theorem claim_C4_counterexample :
    getOrCompile errPlatform [] badTemplate = .error "bad regex syntax" ∧
    hasSub "bad regex syntax".toList "stateA".toList = false ∧
    hasSub "bad regex syntax".toList "0".toList = false :=
  ⟨rfl, rfl, rfl⟩

/-- C4 amended: when a pattern's regex source is invalid for the platform
engine (and the template is not cached), compilation fails by propagating
the engine's raw error message verbatim, with no state name or pattern
index attached. -/
theorem claim_C4_amended (P : Platform) (cache : Cache) (t : Template)
    (n : String) (p : StatePattern) (e : String)
    (hc : jsMapGet cache t.id = none)
    (hs : t.states = [ { name := n, patterns := [p] } ])
    (he : P.build p.regex p.flags = .error e) :
    getOrCompile P cache t = .error e := by
  simp [getOrCompile, hc, hs, compileStates, compilePatterns, he, Bind.bind, Except.bind]

/-- C4 amended witness: the invalid source `[` of `badTemplate2` makes
compilation fail with exactly the engine message. -/
theorem claim_C4_amended_witness :
    getOrCompile errPlatform [] badTemplate2 = .error "unterminated class" :=
  claim_C4_amended errPlatform [] badTemplate2 "s0" { regex := "[" } "unterminated class"
    rfl rfl rfl

/-- C6: the `append` action is the three-way branch of the source on the
current working-set value (absent: fresh one-element list; list: push;
scalar: two-element list of old and new), so three appends starting from
absent yield the three new values in order, and one append onto a
pre-existing scalar yields the two-element list of the old and the new
value. -/
theorem claim_C6_append_law (P : Platform) (opts : EngineOptions)
    (index : List (String × Variable)) (groups : List (String × Option String))
    (w : List (String × Value)) (recs : List (List (String × Value)))
    (x : String) (hx : x ≠ "") (hco : opts.coerceTypes = false) :
    (∀ v : String, jsMapGet w x = none →
      execAction P opts index groups (w, recs)
          { type := .append, var := some x, fromGroup := none, value := some v } =
        (jsMapSet w x (.vlist [.str v]), recs)) ∧
    (∀ (v : String) (xs : List Value), jsMapGet w x = some (.vlist xs) →
      execAction P opts index groups (w, recs)
          { type := .append, var := some x, fromGroup := none, value := some v } =
        (jsMapSet w x (.vlist (xs ++ [.str v])), recs)) ∧
    (∀ (v : String) (v0 : Value), jsMapGet w x = some v0 →
      (∀ xs, v0 ≠ .vlist xs) → v0 ≠ .vUndefined →
      execAction P opts index groups (w, recs)
          { type := .append, var := some x, fromGroup := none, value := some v } =
        (jsMapSet w x (.vlist [v0, .str v]), recs)) ∧
    (∀ v1 v2 v3 : String, jsMapGet w x = none →
      jsMapGet ((([{ type := .append, var := some x, fromGroup := none, value := some v1 },
                   { type := .append, var := some x, fromGroup := none, value := some v2 },
                   { type := .append, var := some x, fromGroup := none, value := some v3 }] : List Action).foldl
          (execAction P opts index groups) ((w, recs) : List (String × Value) × List (List (String × Value)))).1) x =
        some (.vlist [.str v1, .str v2, .str v3])) ∧
    (∀ v0 v1 : String, jsMapGet w x = some (.str v0) →
      jsMapGet ((execAction P opts index groups (w, recs)
          { type := .append, var := some x, fromGroup := none, value := some v1 }).1) x =
        some (.vlist [.str v0, .str v1])) := by
  have htr : truthy (some x) = true := by simp [truthy, hx]
  have hval : ∀ v : String, actionVal P opts index x
      (actionSourceVal groups { type := .append, var := some x, fromGroup := none, value := some v }) = .str v := by
    intro v
    simp [actionVal, actionSourceVal, plainVal, hco]
  refine ⟨?_, ?_, ?_, ?_, ?_⟩
  · intro v habs
    simp [execAction, htr, hval v, habs]
  · intro v xs hlist
    simp [execAction, htr, hval v, hlist]
  · intro v v0 hv0 hnl hnu
    cases v0 with
    | str s => simp [execAction, htr, hval v, hv0]
    | num q => simp [execAction, htr, hval v, hv0]
    | vUndefined => exact absurd rfl hnu
    | vlist xs => exact absurd rfl (hnl xs)
  · intro v1 v2 v3 habs
    simp only [List.foldl_cons, List.foldl_nil]
    rw [show execAction P opts index groups (w, recs)
          { type := .append, var := some x, fromGroup := none, value := some v1 } =
        (jsMapSet w x (.vlist [.str v1]), recs) by simp [execAction, htr, hval v1, habs]]
    rw [show execAction P opts index groups (jsMapSet w x (.vlist [.str v1]), recs)
          { type := .append, var := some x, fromGroup := none, value := some v2 } =
        (jsMapSet (jsMapSet w x (.vlist [.str v1])) x (.vlist [.str v1, .str v2]), recs) by
      simp [execAction, htr, hval v2, jsMapGet_set_self]]
    rw [show execAction P opts index groups
          (jsMapSet (jsMapSet w x (.vlist [.str v1])) x (.vlist [.str v1, .str v2]), recs)
          { type := .append, var := some x, fromGroup := none, value := some v3 } =
        (jsMapSet (jsMapSet (jsMapSet w x (.vlist [.str v1])) x (.vlist [.str v1, .str v2])) x
           (.vlist [.str v1, .str v2, .str v3]), recs) by
      simp [execAction, htr, hval v3, jsMapGet_set_self]]
    exact jsMapGet_set_self _ _ _
  · intro v0 v1 hv0
    rw [show execAction P opts index groups (w, recs)
          { type := .append, var := some x, fromGroup := none, value := some v1 } =
        (jsMapSet w x (.vlist [.str v0, .str v1]), recs) by simp [execAction, htr, hval v1, hv0]]
    exact jsMapGet_set_self _ _ _

/-- C6 witness: the append law applied in the empty working set and in
one holding the scalar `v0` under `k`. -/
theorem claim_C6_append_law_witness :
    (jsMapGet ((([{ type := .append, var := some "k", fromGroup := none, value := some "v1" },
        { type := .append, var := some "k", fromGroup := none, value := some "v2" },
        { type := .append, var := some "k", fromGroup := none, value := some "v3" }] : List Action).foldl
        (execAction litPlatform {} [] []) (([], []) : List (String × Value) × List (List (String × Value)))).1) "k" =
      some (.vlist [.str "v1", .str "v2", .str "v3"])) ∧
    (jsMapGet ((execAction litPlatform {} [] [] ([("k", .str "v0")], [])
        { type := .append, var := some "k", fromGroup := none, value := some "v1" }).1) "k" =
      some (.vlist [.str "v0", .str "v1"])) :=
  ⟨((claim_C6_append_law litPlatform {} [] [] [] [] "k" (by decide) rfl).2.2.2.1) "v1" "v2" "v3" rfl,
   ((claim_C6_append_law litPlatform {} [] [] [("k", .str "v0")] [] "k" (by decide) rfl).2.2.2.2) "v0" "v1" rfl⟩

/-- C7: with type coercion enabled, a `number`-typed variable value is
numerically parsed, keeping the original string whenever the parse fails;
a `list`-typed value is split on commas with each piece trimmed and empty
pieces dropped; and every other declared type (`string`, `ip`, `mac` in
the source union), an untyped declaration, or an undeclared variable
passes the value through unchanged. -/
theorem claim_C7_coercion (P : Platform) (index : List (String × Variable))
    (name raw : String) :
    (∀ vdef, jsMapGet index name = some vdef → vdef.type = some .number →
      ((P.jsNumber raw = none → coerceValue P name raw index = .str raw) ∧
       (∀ q, P.jsNumber raw = some q → coerceValue P name raw index = .num q))) ∧
    (∀ vdef, jsMapGet index name = some vdef → vdef.type = some .list →
      coerceValue P name raw index =
        .vlist ((((splitOnComma [] raw.toList).map jsTrimChars).filter
          (fun cs => 0 < cs.length)).map (fun cs => .str cs.asString))) ∧
    (∀ vdef, jsMapGet index name = some vdef →
      (vdef.type = some .string ∨ vdef.type = some .ip ∨ vdef.type = some .mac ∨
        vdef.type = none) →
      coerceValue P name raw index = .str raw) ∧
    (jsMapGet index name = none → coerceValue P name raw index = .str raw) := by
  refine ⟨?_, ?_, ?_, ?_⟩
  · intro vdef hv ht
    constructor
    · intro hn; simp [coerceValue, hv, ht, hn]
    · intro q hn; simp [coerceValue, hv, ht, hn]
  · intro vdef hv ht
    simp [coerceValue, hv, ht]
  · intro vdef hv ht
    rcases ht with ht | ht | ht | ht <;> simp [coerceValue, hv, ht]
  · intro hv
    simp [coerceValue, hv]

/-- C7 witness: the coercion rules evaluated on the toy platform — a
failing numeric parse keeps the raw string, a successful one yields the
number, a list value is split/trimmed/filtered, and `string`-typed and
undeclared variables pass through. -/
theorem claim_C7_coercion_witness :
    coerceValue numPlatform "n" "abc" numVarIndex = .str "abc" ∧
    coerceValue numPlatform "n" "42" numVarIndex = .num 42 ∧
    coerceValue numPlatform "l" " a, ,b " listVarIndex = .vlist [.str "a", .str "b"] ∧
    coerceValue numPlatform "s" "42" strVarIndex = .str "42" ∧
    coerceValue numPlatform "zz" "42" strVarIndex = .str "42" :=
  ⟨((claim_C7_coercion numPlatform numVarIndex "n" "abc").1
      { name := "n", pattern := "", type := some VariableType.number } rfl rfl).1 rfl,
   ((claim_C7_coercion numPlatform numVarIndex "n" "42").1
      { name := "n", pattern := "", type := some VariableType.number } rfl rfl).2 42 rfl,
   (claim_C7_coercion numPlatform listVarIndex "l" " a, ,b ").2.1
      { name := "l", pattern := "", type := some VariableType.list } rfl rfl,
   (claim_C7_coercion numPlatform strVarIndex "s" "42").2.2.1
      { name := "s", pattern := "", type := some VariableType.string } rfl (Or.inl rfl),
   (claim_C7_coercion numPlatform strVarIndex "zz" "42").2.2.2 rfl⟩

/-- C9: the capture-group binding loop binds every named group of the
match's `groups` object into the working set — a group that did not
participate (its value is `undefined`) binds its target variable to
`undefined` — overwriting whatever value the variable held before,
for any prior working set.  (Stated with `coerceTypes` off, the default;
group names are assumed to rename to pairwise distinct variables, as JS
named groups are unique.) -/
theorem claim_C9_groups_bound (P : Platform) (opts : EngineOptions)
    (index : List (String × Variable)) (pmap : Option (List (String × String)))
    (w : List (String × Value)) (groups : List (String × Option String))
    (g : String) (v : Option String)
    (hco : opts.coerceTypes = false)
    (hmem : (g, v) ∈ groups)
    (hnodup : (groups.map (fun gv => mapName pmap gv.1)).Nodup) :
    jsMapGet (bindGroups P opts index pmap w groups) (mapName pmap g) = some (plainVal v) := by
  induction groups generalizing w with
  | nil => simp at hmem
  | cons gv gs ih =>
    rcases List.mem_cons.mp hmem with h | h
    · rw [bindGroups_cons, ← h]
      rw [bindGroups_get_notmem]
      · rw [jsMapGet_set_self, groupBindVal_plain _ _ _ _ _ hco]
      · have := (List.nodup_cons.mp hnodup).1
        rw [← h] at this
        exact this
    · exact ih _ h (List.nodup_cons.mp hnodup).2

/-- C9 witness: a match whose group `a` participated and whose group `b`
did not binds `a` to its string and `b` to `undefined`, overwriting the
earlier values of both variables. -/
theorem claim_C9_groups_bound_witness :
    jsMapGet (bindGroups litPlatform {} [] none
        [("b", .str "old-b"), ("a", .str "old-a")] [("a", some "new"), ("b", none)]) "a" =
      some (plainVal (some "new")) ∧
    jsMapGet (bindGroups litPlatform {} [] none
        [("b", .str "old-b"), ("a", .str "old-a")] [("a", some "new"), ("b", none)]) "b" =
      some (plainVal none) :=
  ⟨claim_C9_groups_bound litPlatform {} [] none [("b", .str "old-b"), ("a", .str "old-a")]
      [("a", some "new"), ("b", none)] "a" (some "new") rfl (by decide) (by decide),
   claim_C9_groups_bound litPlatform {} [] none [("b", .str "old-b"), ("a", .str "old-a")]
      [("a", some "new"), ("b", none)] "b" none rfl (by decide) (by decide)⟩

/-! Lemmas about the line loop. -/

theorem parseOutput_eq (P : Platform) (cache : Cache) (S : String) (t : Template)
    (opts : EngineOptions) (comp : CompiledTemplate) (c1 : Cache)
    (hg : getOrCompile P cache t = .ok (comp, c1)) :
    parseOutput P cache S t opts =
      .ok (mkParsedResult t opts
             (runLines P opts (mkVariableIndex t.vars) (splitLines S).length (splitLines S)
               (initLoopSt comp)),
           jsMapSet c1 t.id { comp with states :=
             (runLines P opts (mkVariableIndex t.vars) (splitLines S).length (splitLines S)
               (initLoopSt comp)).states }) := by
  simp [parseOutput, hg, Bind.bind, Except.bind]

theorem pushTrace_lp (opts : EngineOptions) (st : LoopSt) (line : String)
    (out : Option MatchOut) : (pushTrace opts st line out).linesProcessed = st.linesProcessed := by
  unfold pushTrace
  split <;> rfl

theorem applyTransition_lp (total : Nat) (st : LoopSt) (t : Option Transition) :
    (applyTransition total st t).linesProcessed = st.linesProcessed ∨
    (applyTransition total st t).linesProcessed = total := by
  cases t with
  | none => exact Or.inl rfl
  | some tr =>
    by_cases h1 : tr.to_ = "self"
    · simp [applyTransition, h1]
    · by_cases h2 : tr.to_ = "end"
      · simp [applyTransition, h1, h2]
      · simp [applyTransition, h1, h2]

theorem processLine_lp (P : Platform) (opts : EngineOptions) (index : List (String × Variable))
    (total : Nat) (st : LoopSt) (line : String) (state : CompiledState) :
    (processLine P opts index total st line state).linesProcessed = st.linesProcessed ∨
    (processLine P opts index total st line state).linesProcessed = total := by
  unfold processLine
  cases hout : (innerLoop line state.patterns).2 with
  | none => simp [hout, pushTrace_lp]
  | some o =>
    simp only [hout, pushTrace_lp]
    exact applyTransition_lp total _ _

theorem runLines_lp_ge_one (P : Platform) (opts : EngineOptions)
    (index : List (String × Variable)) (total : Nat) (lines : List String) (st : LoopSt)
    (htot : 1 ≤ total) (hst : 1 ≤ st.linesProcessed) :
    1 ≤ (runLines P opts index total lines st).linesProcessed := by
  induction lines generalizing st with
  | nil => simpa [runLines] using hst
  | cons line rest ih =>
    rw [runLines]
    split
    · simp
    · next state _ =>
      apply ih
      rcases processLine_lp P opts index total
          { st with linesProcessed := st.linesProcessed + 1 } line state with h | h
      · rw [h]; simp
      · rw [h]; exact htot

theorem runLines_lp_ge_one_cons (P : Platform) (opts : EngineOptions)
    (index : List (String × Variable)) (total : Nat) (line : String) (rest : List String)
    (st : LoopSt) (htot : 1 ≤ total) :
    1 ≤ (runLines P opts index total (line :: rest) st).linesProcessed := by
  rw [runLines]
  split
  · simp
  · next state _ =>
    apply runLines_lp_ge_one P opts index total rest _ htot
    rcases processLine_lp P opts index total
        { st with linesProcessed := st.linesProcessed + 1 } line state with h | h
    · rw [h]; simp
    · rw [h]; exact htot

theorem splitChars_ne_nil (acc cs : List Char) : splitChars acc cs ≠ [] := by
  induction acc, cs using splitChars.induct <;> simp_all [splitChars]

theorem splitLines_ne_nil (s : String) : splitLines s ≠ [] := by
  unfold splitLines
  simp [splitChars_ne_nil]

/-! Claim theorems for C3 and C10. -/

/-- C3: when the current state name is absent from the compiled state
table, the loop appends the unknown-state error message and stops at once
— the remaining lines are dropped and the records and working set are
left as they were (first conjunct); and after a successful compilation a
parse always returns a normal result built from the final loop state —
whose `errors` end up in `meta.errors` — rather than raising (second
conjunct). -/
theorem claim_C3_unknown_state :
    (∀ (P : Platform) (opts : EngineOptions) (index : List (String × Variable))
       (total : Nat) (line : String) (rest : List String) (st : LoopSt),
      jsMapGet st.states st.currentStateName = none →
      runLines P opts index total (line :: rest) st =
        { st with linesProcessed := st.linesProcessed + 1,
                  errors := st.errors ++ ["Unknown state: " ++ st.currentStateName] }) ∧
    (∀ (P : Platform) (cache : Cache) (S : String) (t : Template) (opts : EngineOptions)
       (comp : CompiledTemplate) (c1 : Cache),
      getOrCompile P cache t = .ok (comp, c1) →
      parseOutput P cache S t opts =
        .ok (mkParsedResult t opts
               (runLines P opts (mkVariableIndex t.vars) (splitLines S).length (splitLines S)
                 (initLoopSt comp)),
             jsMapSet c1 t.id { comp with states :=
               (runLines P opts (mkVariableIndex t.vars) (splitLines S).length (splitLines S)
                 (initLoopSt comp)).states })) := by
  constructor
  · intro P opts index total line rest st h
    rw [runLines]
    simp only [h]
  · intro P cache S t opts comp c1 hg
    exact parseOutput_eq P cache S t opts comp c1 hg

/-- C3 witness: the loop stuck in the unknown state `nope` stops with the
error recorded and its one emitted record intact, and the parse of
`nopeTemplate` (whose pattern transitions to `nope`) returns normally. -/
theorem claim_C3_unknown_state_witness :
    (runLines litPlatform {} [] 2 ["x", "y"] unknownStLoop =
      { unknownStLoop with linesProcessed := 6, errors := ["Unknown state: nope"] }) ∧
    (parseOutput litPlatform [] "a\nz" nopeTemplate {} =
      .ok (mkParsedResult nopeTemplate {}
             (runLines litPlatform {} (mkVariableIndex nopeTemplate.vars)
               (splitLines "a\nz").length (splitLines "a\nz") (initLoopSt nopeCompiled)),
           jsMapSet [("tn", nopeCompiled)] "tn" { nopeCompiled with states :=
             (runLines litPlatform {} (mkVariableIndex nopeTemplate.vars)
               (splitLines "a\nz").length (splitLines "a\nz") (initLoopSt nopeCompiled)).states })) :=
  ⟨claim_C3_unknown_state.1 litPlatform {} [] 2 "x" ["y"] unknownStLoop rfl,
   claim_C3_unknown_state.2 litPlatform [] "a\nz" nopeTemplate {} nopeCompiled
     [("tn", nopeCompiled)] rfl⟩

/-- C10: splitting the input never yields an empty line list (first
conjunct), so every parse that returns processes at least one line —
`meta.linesProcessed` is at least 1 (second conjunct) — and parsing the
empty string runs the single empty line `""` against the start state of
the compiled template (third conjunct: the loop runs on the one-element
line list `[""]` from `initLoopSt`, whose current state is the start
state). -/
theorem claim_C10_at_least_one_line :
    (∀ s : String, splitLines s ≠ []) ∧
    (∀ (P : Platform) (cache : Cache) (S : String) (t : Template) (opts : EngineOptions)
       (r : ParsedResult) (c2 : Cache),
      parseOutput P cache S t opts = .ok (r, c2) → 1 ≤ r.meta.linesProcessed) ∧
    (∀ (P : Platform) (cache : Cache) (t : Template) (opts : EngineOptions)
       (comp : CompiledTemplate) (c1 : Cache),
      getOrCompile P cache t = .ok (comp, c1) →
      parseOutput P cache "" t opts =
        .ok (mkParsedResult t opts
               (runLines P opts (mkVariableIndex t.vars) 1 [""] (initLoopSt comp)),
             jsMapSet c1 t.id { comp with states :=
               (runLines P opts (mkVariableIndex t.vars) 1 [""] (initLoopSt comp)).states })) := by
  refine ⟨splitLines_ne_nil, ?_, ?_⟩
  · intro P cache S t opts r c2 h
    cases hg : getOrCompile P cache t with
    | error e =>
      rw [parseOutput, hg] at h
      simp [Bind.bind, Except.bind] at h
    | ok pc =>
      obtain ⟨comp, c1⟩ := pc
      rw [parseOutput_eq P cache S t opts comp c1 hg] at h
      have hr : r = mkParsedResult t opts
          (runLines P opts (mkVariableIndex t.vars) (splitLines S).length (splitLines S)
            (initLoopSt comp)) := by
        cases h
        rfl
      subst hr
      obtain ⟨line, rest, hsplit⟩ := List.exists_cons_of_ne_nil (splitLines_ne_nil S)
      rw [mkParsedResult]
      simp only []
      rw [hsplit]
      apply runLines_lp_ge_one_cons
      simp
  · intro P cache t opts comp c1 hg
    exact parseOutput_eq P cache "" t opts comp c1 hg

/-- C10 witness: splitting a two-line input is non-empty, the parse of
`plainTemplate` on `a` processes at least one line, and the parse of the
empty string runs the single empty line from the start state. -/
theorem claim_C10_at_least_one_line_witness :
    splitLines "x\ny" ≠ [] ∧
    1 ≤ plainR1.meta.linesProcessed ∧
    (parseOutput litPlatform [] "" plainTemplate {} =
      .ok (mkParsedResult plainTemplate {}
             (runLines litPlatform {} (mkVariableIndex plainTemplate.vars) 1 [""]
               (initLoopSt plainCompiled)),
           jsMapSet [("tp", plainCompiled)] "tp" { plainCompiled with states :=
             (runLines litPlatform {} (mkVariableIndex plainTemplate.vars) 1 [""]
               (initLoopSt plainCompiled)).states })) :=
  ⟨claim_C10_at_least_one_line.1 "x\ny",
   claim_C10_at_least_one_line.2.1 litPlatform [] "a" plainTemplate {} plainR1 plainCache1 rfl,
   claim_C10_at_least_one_line.2.2 litPlatform [] plainTemplate {} plainCompiled
     [("tp", plainCompiled)] rfl⟩

/-! Lemmas for the filldown invariant (C5). -/

theorem execAction_preserves (P : Platform) (opts : EngineOptions)
    (index : List (String × Variable)) (groups : List (String × Option String))
    (v : String) (a : Action)
    (st : List (String × Value) × List (List (String × Value)))
    (hreset : opts.resetOnEmit = false)
    (ha : ¬(a.type = ActionType.clear ∧ a.var = some v))
    (hw : (jsMapGet st.1 v).isSome) :
    (jsMapGet (execAction P opts index groups st a).1 v).isSome ∧
    (∀ r ∈ (execAction P opts index groups st a).2, r ∈ st.2 ∨ (jsMapGet r v).isSome) := by
  obtain ⟨w, recs⟩ := st
  cases hat : a.type with
  | emit =>
    constructor
    · simpa [execAction, hat, hreset] using hw
    · intro r hr
      simp [execAction, hat, hreset] at hr
      rcases hr with hr | hr
      · exact Or.inl hr
      · subst hr; exact Or.inr hw
  | set =>
    by_cases htr : truthy a.var = true
    · constructor
      · simp only [execAction, hat, htr, if_true]
        exact jsMapGet_isSome_set _ _ _ _ hw
      · intro r hr
        simp only [execAction, hat, htr, if_true] at hr
        exact Or.inl hr
    · rw [Bool.not_eq_true] at htr
      constructor
      · simpa [execAction, hat, htr] using hw
      · intro r hr
        simp only [execAction, hat, htr, Bool.false_eq_true, if_false] at hr
        exact Or.inl hr
  | clear =>
    by_cases htr : truthy a.var = true
    · have hvar : a.var ≠ some v := fun hc => ha ⟨hat, hc⟩
      cases hval : a.var with
      | none => rw [hval] at htr; simp [truthy] at htr
      | some s =>
        have hsv : v ≠ s := by
          intro hk
          exact hvar (by rw [hval, hk])
        rw [hval] at htr
        constructor
        · simp only [execAction, hat, hval, htr, if_true, Option.getD_some]
          rwa [jsMapGet_delete_ne _ _ _ hsv]
        · intro r hr
          simp only [execAction, hat, hval, htr, if_true] at hr
          exact Or.inl hr
    · rw [Bool.not_eq_true] at htr
      constructor
      · simpa [execAction, hat, htr] using hw
      · intro r hr
        simp only [execAction, hat, htr, Bool.false_eq_true, if_false] at hr
        exact Or.inl hr
  | append =>
    by_cases htr : truthy a.var = true
    · cases hcur : jsMapGet w (a.var.getD "") with
      | none =>
        constructor
        · simp only [execAction, hat, htr, if_true, hcur]
          exact jsMapGet_isSome_set _ _ _ _ hw
        · intro r hr
          simp only [execAction, hat, htr, if_true, hcur] at hr
          exact Or.inl hr
      | some val =>
        cases val with
        | str s =>
          constructor
          · simp only [execAction, hat, htr, if_true, hcur]
            exact jsMapGet_isSome_set _ _ _ _ hw
          · intro r hr
            simp only [execAction, hat, htr, if_true, hcur] at hr
            exact Or.inl hr
        | num q =>
          constructor
          · simp only [execAction, hat, htr, if_true, hcur]
            exact jsMapGet_isSome_set _ _ _ _ hw
          · intro r hr
            simp only [execAction, hat, htr, if_true, hcur] at hr
            exact Or.inl hr
        | vUndefined =>
          constructor
          · simp only [execAction, hat, htr, if_true, hcur]
            exact jsMapGet_isSome_set _ _ _ _ hw
          · intro r hr
            simp only [execAction, hat, htr, if_true, hcur] at hr
            exact Or.inl hr
        | vlist xs =>
          constructor
          · simp only [execAction, hat, htr, if_true, hcur]
            exact jsMapGet_isSome_set _ _ _ _ hw
          · intro r hr
            simp only [execAction, hat, htr, if_true, hcur] at hr
            exact Or.inl hr
    · rw [Bool.not_eq_true] at htr
      constructor
      · simpa [execAction, hat, htr] using hw
      · intro r hr
        simp only [execAction, hat, htr, Bool.false_eq_true, if_false] at hr
        exact Or.inl hr

theorem execActions_preserve (P : Platform) (opts : EngineOptions)
    (index : List (String × Variable)) (groups : List (String × Option String))
    (v : String) (acts : List Action)
    (st : List (String × Value) × List (List (String × Value)))
    (hreset : opts.resetOnEmit = false)
    (hall : NoClearOn v acts)
    (hw : (jsMapGet st.1 v).isSome) :
    (jsMapGet (acts.foldl (execAction P opts index groups) st).1 v).isSome ∧
    (∀ r ∈ (acts.foldl (execAction P opts index groups) st).2,
      r ∈ st.2 ∨ (jsMapGet r v).isSome) := by
  induction acts generalizing st with
  | nil => exact ⟨hw, fun r hr => Or.inl hr⟩
  | cons a rest ih =>
    simp only [List.foldl_cons]
    have h1 := execAction_preserves P opts index groups v a st hreset
      (hall a (List.mem_cons_self _ _)) hw
    have h2 := ih (execAction P opts index groups st a)
      (fun b hb => hall b (List.mem_cons_of_mem _ hb)) h1.1
    refine ⟨h2.1, ?_⟩
    intro r hr
    rcases h2.2 r hr with hr2 | hr2
    · rcases h1.2 r hr2 with hr3 | hr3
      · exact Or.inl hr3
      · exact Or.inr hr3
    · exact Or.inr hr2

theorem bindGroups_isSome (P : Platform) (opts : EngineOptions)
    (index : List (String × Variable)) (pmap : Option (List (String × String)))
    (w : List (String × Value)) (groups : List (String × Option String)) (v : String)
    (hw : (jsMapGet w v).isSome) :
    (jsMapGet (bindGroups P opts index pmap w groups) v).isSome := by
  induction groups generalizing w with
  | nil => exact hw
  | cons gv gs ih =>
    rw [bindGroups_cons]
    exact ih _ (jsMapGet_isSome_set _ _ _ _ hw)

theorem innerLoop_actions_eq (line : String) (ps : List CompiledPattern) :
    ((innerLoop line ps).1).map CompiledPattern.actions = ps.map CompiledPattern.actions := by
  induction ps with
  | nil => rfl
  | cons p ps ih =>
    cases h : (execRegex p.regex line).1 with
    | some gs => simp [innerLoop, h]
    | none => simp [innerLoop, h, ih]

theorem innerLoop_out_actions (line : String) (ps : List CompiledPattern) (o : MatchOut)
    (h : (innerLoop line ps).2 = some o) :
    ∃ p ∈ ps, o.pattern.actions = p.actions := by
  induction ps generalizing o with
  | nil => simp [innerLoop] at h
  | cons p ps ih =>
    cases he : (execRegex p.regex line).1 with
    | some gs =>
      simp [innerLoop, he] at h
      exact ⟨p, List.mem_cons_self _ _, by rw [← h]⟩
    | none =>
      simp [innerLoop, he] at h
      obtain ⟨o2, ho2, hmap⟩ := h
      obtain ⟨q, hq, hqe⟩ := ih o2 ho2
      refine ⟨q, List.mem_cons_of_mem _ hq, ?_⟩
      rw [← hmap]
      exact hqe

theorem noClearStates_set (v : String) (states : List (String × CompiledState))
    (name : String) (state : CompiledState) (newPats : List CompiledPattern)
    (h : NoClearStates v states)
    (hstate : jsMapGet states name = some state)
    (hacts : newPats.map CompiledPattern.actions = state.patterns.map CompiledPattern.actions) :
    NoClearStates v (jsMapSet states name { state with patterns := newPats }) := by
  intro e he
  rcases jsMapSet_mem states name _ e he with h1 | h1
  · subst h1
    intro p hp
    have hm : p.actions ∈ state.patterns.map CompiledPattern.actions := by
      rw [← hacts]
      exact List.mem_map_of_mem _ hp
    obtain ⟨q, hq, hqe⟩ := List.mem_map.mp hm
    rw [← hqe]
    exact h (name, state) (jsMapGet_mem _ _ _ hstate) q hq
  · exact h e h1

theorem applyTransition_obs (total : Nat) (st : LoopSt) (t : Option Transition) :
    (applyTransition total st t).working = st.working ∧
    (applyTransition total st t).records = st.records ∧
    (applyTransition total st t).states = st.states := by
  cases t with
  | none => exact ⟨rfl, rfl, rfl⟩
  | some tr =>
    by_cases h1 : tr.to_ = "self"
    · simp [applyTransition, h1]
    · by_cases h2 : tr.to_ = "end"
      · simp [applyTransition, h1, h2]
      · simp [applyTransition, h1, h2]

theorem pushTrace_obs (opts : EngineOptions) (st : LoopSt) (line : String)
    (out : Option MatchOut) :
    (pushTrace opts st line out).working = st.working ∧
    (pushTrace opts st line out).records = st.records ∧
    (pushTrace opts st line out).states = st.states := by
  unfold pushTrace
  split
  · exact ⟨rfl, rfl, rfl⟩
  · exact ⟨rfl, rfl, rfl⟩

theorem processLine_inv (P : Platform) (opts : EngineOptions)
    (index : List (String × Variable)) (total : Nat) (st : LoopSt) (line : String)
    (state : CompiledState) (v : String)
    (hreset : opts.resetOnEmit = false)
    (hnc : NoClearStates v st.states)
    (hstate : jsMapGet st.states st.currentStateName = some state)
    (hw : (jsMapGet st.working v).isSome) :
    (jsMapGet (processLine P opts index total st line state).working v).isSome ∧
    (∀ r ∈ (processLine P opts index total st line state).records,
      r ∈ st.records ∨ (jsMapGet r v).isSome) ∧
    NoClearStates v (processLine P opts index total st line state).states := by
  have hnc1 : NoClearStates v
      (jsMapSet st.states st.currentStateName
        { state with patterns := (innerLoop line state.patterns).1 }) :=
    noClearStates_set v st.states st.currentStateName state _ hnc hstate
      (innerLoop_actions_eq line state.patterns)
  cases hout : (innerLoop line state.patterns).2 with
  | none =>
    refine ⟨?_, ?_, ?_⟩
    · simp only [processLine, hout]
      rw [(pushTrace_obs _ _ _ _).1]
      exact hw
    · intro r hr
      simp only [processLine, hout] at hr
      rw [(pushTrace_obs _ _ _ _).2.1] at hr
      exact Or.inl hr
    · simp only [processLine, hout]
      rw [(pushTrace_obs _ _ _ _).2.2]
      exact hnc1
  | some o =>
    have hacts : NoClearOn v (o.pattern.actions.getD []) := by
      obtain ⟨q, hq, hqe⟩ := innerLoop_out_actions line state.patterns o hout
      rw [hqe]
      exact hnc (st.currentStateName, state) (jsMapGet_mem _ _ _ hstate) q hq
    have hw1 : (jsMapGet (bindGroups P opts index o.pattern.map st.working o.groups) v).isSome :=
      bindGroups_isSome P opts index o.pattern.map st.working o.groups v hw
    have hfold := execActions_preserve P opts index o.groups v (o.pattern.actions.getD [])
      (bindGroups P opts index o.pattern.map st.working o.groups, st.records) hreset hacts hw1
    refine ⟨?_, ?_, ?_⟩
    · simp only [processLine, hout]
      rw [(pushTrace_obs _ _ _ _).1, (applyTransition_obs _ _ _).1]
      exact hfold.1
    · intro r hr
      simp only [processLine, hout] at hr
      rw [(pushTrace_obs _ _ _ _).2.1, (applyTransition_obs _ _ _).2.1] at hr
      exact hfold.2 r hr
    · simp only [processLine, hout]
      rw [(pushTrace_obs _ _ _ _).2.2, (applyTransition_obs _ _ _).2.2]
      exact hnc1

theorem runLines_unknown_state (P : Platform) (opts : EngineOptions)
    (index : List (String × Variable)) (total : Nat) (line : String) (rest : List String)
    (st : LoopSt) (h : jsMapGet st.states st.currentStateName = none) :
    runLines P opts index total (line :: rest) st =
      { st with linesProcessed := st.linesProcessed + 1,
                errors := st.errors ++ ["Unknown state: " ++ st.currentStateName] } := by
  rw [runLines]
  simp only [h]

theorem runLines_cons_some (P : Platform) (opts : EngineOptions)
    (index : List (String × Variable)) (total : Nat) (line : String) (rest : List String)
    (st : LoopSt) (state : CompiledState)
    (h : jsMapGet st.states st.currentStateName = some state) :
    runLines P opts index total (line :: rest) st =
      runLines P opts index total rest
        (processLine P opts index total
          { st with linesProcessed := st.linesProcessed + 1 } line state) := by
  rw [runLines]
  simp only [h]

/-- C5: filldown persistence.  With `resetOnEmit = false`, a variable `v`
present in the working set stays present in the working set through any
run of the line loop, and every record emitted during that run contains
`v` — provided no pattern of the state table carries a `clear` action of
`v` (the claim's "unless a clear action removed it in between"). -/
theorem claim_C5_filldown (P : Platform) (opts : EngineOptions)
    (index : List (String × Variable)) (total : Nat) (lines : List String)
    (st : LoopSt) (v : String)
    (hreset : opts.resetOnEmit = false)
    (hnc : NoClearStates v st.states)
    (hw : (jsMapGet st.working v).isSome) :
    (jsMapGet (runLines P opts index total lines st).working v).isSome ∧
    ∀ r ∈ (runLines P opts index total lines st).records,
      r ∈ st.records ∨ (jsMapGet r v).isSome := by
  induction lines generalizing st with
  | nil => exact ⟨hw, fun r hr => Or.inl hr⟩
  | cons line rest ih =>
    cases hstate : jsMapGet st.states st.currentStateName with
    | none =>
      rw [runLines_unknown_state P opts index total line rest st hstate]
      exact ⟨hw, fun r hr => Or.inl hr⟩
    | some state =>
      rw [runLines_cons_some P opts index total line rest st state hstate]
      have h1 := processLine_inv P opts index total
        { st with linesProcessed := st.linesProcessed + 1 } line state v hreset hnc hstate hw
      have h2 := ih (processLine P opts index total
        { st with linesProcessed := st.linesProcessed + 1 } line state) h1.2.2 h1.1
      refine ⟨h2.1, ?_⟩
      intro r hr
      rcases h2.2 r hr with hr2 | hr2
      · rcases h1.2.1 r hr2 with hr3 | hr3
        · exact Or.inl hr3
        · exact Or.inr hr3
      · exact Or.inr hr2

/-- C5 witness: the variable `host`, present before the loop, is present
in the working set after two lines of an emitting run and in every record
it emitted. -/
theorem claim_C5_filldown_witness :
    (jsMapGet (runLines litPlatform {} [] 2 ["l1", "l2"] c5LoopSt).working "host").isSome ∧
    ∀ r ∈ (runLines litPlatform {} [] 2 ["l1", "l2"] c5LoopSt).records,
      r ∈ c5LoopSt.records ∨ (jsMapGet r "host").isSome :=
  claim_C5_filldown litPlatform {} [] 2 ["l1", "l2"] c5LoopSt "host" rfl
    (by intro e he p hp; fin_cases he; simp_all [pTail, emitAction, NoClearOn]) rfl

/-! Lemmas for the determinism analysis (C8). -/

theorem execRegex_nonstateful (r : JsRegex) (s : String) (h : r.stateful = false) :
    execRegex r s = ((r.matchAt s 0).map MatchRes.groups, r) := by
  simp [execRegex, h]

theorem innerLoop_fst_nonstateful (line : String) (ps : List CompiledPattern)
    (h : ∀ p ∈ ps, p.regex.stateful = false) :
    (innerLoop line ps).1 = ps := by
  induction ps with
  | nil => rfl
  | cons p ps ih =>
    have her := execRegex_nonstateful p.regex line (h p (List.mem_cons_self _ _))
    have h2 : (execRegex p.regex line).2 = p.regex := by rw [her]
    cases hm : (execRegex p.regex line).1 with
    | some gs =>
      simp only [innerLoop, hm, h2]
    | none =>
      simp only [innerLoop, hm, h2]
      rw [ih (fun q hq => h q (List.mem_cons_of_mem _ hq))]

theorem applyMatchEffects_states (P : Platform) (opts : EngineOptions)
    (index : List (String × Variable)) (st : LoopSt) (o : MatchOut) :
    (applyMatchEffects P opts index st o).states = st.states := rfl

theorem processLine_states (P : Platform) (opts : EngineOptions)
    (index : List (String × Variable)) (total : Nat) (st : LoopSt) (line : String)
    (state : CompiledState)
    (hstate : jsMapGet st.states st.currentStateName = some state)
    (hns : ∀ p ∈ state.patterns, p.regex.stateful = false) :
    (processLine P opts index total st line state).states = st.states := by
  have h1 : (innerLoop line state.patterns).1 = state.patterns :=
    innerLoop_fst_nonstateful line state.patterns hns
  cases hout : (innerLoop line state.patterns).2 with
  | none =>
    simp only [processLine, hout]
    rw [(pushTrace_obs _ _ _ _).2.2, h1]
    exact jsMapSet_same _ _ _ hstate
  | some o =>
    simp only [processLine, hout]
    rw [(pushTrace_obs _ _ _ _).2.2, (applyTransition_obs _ _ _).2.2,
      applyMatchEffects_states, h1]
    exact jsMapSet_same _ _ _ hstate

theorem runLines_states (P : Platform) (opts : EngineOptions)
    (index : List (String × Variable)) (total : Nat) (lines : List String) (st : LoopSt)
    (hns : NonStatefulStates st.states) :
    (runLines P opts index total lines st).states = st.states := by
  induction lines generalizing st with
  | nil => rfl
  | cons line rest ih =>
    cases hstate : jsMapGet st.states st.currentStateName with
    | none => rw [runLines_unknown_state P opts index total line rest st hstate]
    | some state =>
      rw [runLines_cons_some P opts index total line rest st state hstate]
      have hstp : ∀ p ∈ state.patterns, p.regex.stateful = false :=
        hns (st.currentStateName, state) (jsMapGet_mem _ _ _ hstate)
      have h2 : (processLine P opts index total
          { st with linesProcessed := st.linesProcessed + 1 } line state).states = st.states :=
        processLine_states P opts index total _ line state hstate hstp
      rw [ih _ (by rw [h2]; exact hns), h2]

theorem compilePatterns_nonstateful (P : Platform) (ps : List StatePattern)
    (cps : List CompiledPattern)
    (h : ∀ p ∈ ps, flagsStateful p.flags = false)
    (hok : compilePatterns P ps = .ok cps) :
    ∀ q ∈ cps, q.regex.stateful = false := by
  induction ps generalizing cps with
  | nil =>
    simp [compilePatterns] at hok
    subst hok
    intro q hq
    simp at hq
  | cons p ps ih =>
    cases hb : P.build p.regex p.flags with
    | error e => simp [compilePatterns, hb, Bind.bind, Except.bind] at hok
    | ok m =>
      cases hr : compilePatterns P ps with
      | error e => simp [compilePatterns, hb, hr, Bind.bind, Except.bind] at hok
      | ok rest =>
        simp only [compilePatterns, hb, hr, Bind.bind, Except.bind, Except.ok.injEq] at hok
        subst hok
        intro q hq
        rcases List.mem_cons.mp hq with h1 | h1
        · rw [h1]
          exact h p (List.mem_cons_self _ _)
        · exact ih rest (fun r hr2 => h r (List.mem_cons_of_mem _ hr2)) hr q h1

theorem compileStates_nonstateful (P : Platform) (ss : List State)
    (acc states : List (String × CompiledState))
    (h : ∀ s ∈ ss, ∀ p ∈ s.patterns, flagsStateful p.flags = false)
    (hacc : NonStatefulStates acc)
    (hok : compileStates P ss acc = .ok states) :
    NonStatefulStates states := by
  induction ss generalizing acc with
  | nil =>
    simp [compileStates] at hok
    subst hok
    exact hacc
  | cons s ss ih =>
    cases hc : compilePatterns P s.patterns with
    | error e => simp [compileStates, hc, Bind.bind, Except.bind] at hok
    | ok cps =>
      simp only [compileStates, hc, Bind.bind, Except.bind] at hok
      have hacc2 : NonStatefulStates (jsMapSet acc s.name { name := s.name, patterns := cps }) := by
        intro e he
        rcases jsMapSet_mem acc s.name _ e he with h1 | h1
        · subst h1
          intro p hp
          exact compilePatterns_nonstateful P s.patterns cps (h s (List.mem_cons_self _ _)) hc p hp
        · exact hacc e h1
      exact ih _ (fun s2 hs2 p hp => h s2 (List.mem_cons_of_mem _ hs2) p hp) hacc2 hok

/-! Claim theorems for C8. -/

/-- C8 counterexample: the claim says repeated `parse(S, T)` calls on one
engine instance always return identical results.  A template whose
pattern carries the `g` flag refutes this: the compiled `RegExp` is cached
and `exec` advances its `lastIndex`, so on the one-line input `a` the
first call matches and emits one record while the second call, on the
same engine, matches nothing. -/
theorem claim_C8_determinism_counterexample :
    parse2Results litPlatform [] "a" gTemplate {} = some (c8r1, c8r2) ∧
    c8r1.records ≠ c8r2.records :=
  ⟨rfl, by simp [c8r1, c8r2]⟩

/-- C8 amended: determinism holds for stateless templates.  If no pattern
of the template carries a `g` or `y` flag and the engine has no cache
entry for the template id yet, then after a first successful
`parse(S, T)` the engine returns exactly the same result — and the same
cache — on the repeated call, hence on every further call. -/
theorem claim_C8_amended (P : Platform) (cache : Cache) (S : String) (t : Template)
    (opts : EngineOptions) (r1 : ParsedResult) (c1 : Cache)
    (hfresh : jsMapGet cache t.id = none)
    (hns : NonStatefulTemplate t)
    (h1 : parseOutput P cache S t opts = .ok (r1, c1)) :
    parseOutput P c1 S t opts = .ok (r1, c1) := by
  cases hcs : compileStates P t.states [] with
  | error e =>
    have hg : getOrCompile P cache t = .error e := by
      simp [getOrCompile, hfresh, hcs, Bind.bind, Except.bind]
    rw [parseOutput, hg] at h1
    simp [Bind.bind, Except.bind] at h1
  | ok states =>
    cases hts : t.states with
    | nil =>
      rw [hts] at hcs
      have hg : getOrCompile P cache t = .error "TypeError: cannot read name of undefined" := by
        simp [getOrCompile, hfresh, hcs, hts, Bind.bind, Except.bind]
      rw [parseOutput, hg] at h1
      simp [Bind.bind, Except.bind] at h1
    | cons s0 srest =>
      rw [hts] at hcs
      have hg : getOrCompile P cache t =
          .ok ({ template := t, states := states, startState := s0.name },
               jsMapSet cache t.id { template := t, states := states, startState := s0.name }) := by
        simp [getOrCompile, hfresh, hcs, hts, Bind.bind, Except.bind]
      have hnss : NonStatefulStates states :=
        compileStates_nonstateful P (s0 :: srest) [] states
          (fun s hs p hp => hns s (hts ▸ hs) p hp) (by intro e he; simp at he) hcs
      have hrun : (runLines P opts (mkVariableIndex t.vars) (splitLines S).length (splitLines S)
          (initLoopSt { template := t, states := states, startState := s0.name })).states =
          states := by
        exact runLines_states P opts (mkVariableIndex t.vars) (splitLines S).length
          (splitLines S) _ hnss
      rw [parseOutput_eq P cache S t opts _ _ hg, Except.ok.injEq, Prod.mk.injEq] at h1
      obtain ⟨hA, hB⟩ := h1
      have hc1 : c1 = jsMapSet cache t.id { template := t, states := states, startState := s0.name } := by
        rw [← hB, hrun]
        exact jsMapSet_same _ _ _ (jsMapGet_set_self cache t.id _)
      have hg2 : getOrCompile P c1 t =
          .ok ({ template := t, states := states, startState := s0.name }, c1) := by
        rw [hc1]
        simp [getOrCompile, jsMapGet_set_self]
      rw [parseOutput_eq P c1 S t opts _ _ hg2, Except.ok.injEq, Prod.mk.injEq]
      constructor
      · exact hA
      · rw [hrun, hc1]
        exact jsMapSet_same _ _ _ (jsMapGet_set_self cache t.id _)

/-- C8 amended witness: on the flagless `plainTemplate`, a second parse of
the input `a` on the engine left by the first parse returns the identical
result and leaves the cache unchanged. -/
theorem claim_C8_amended_witness :
    parseOutput litPlatform plainCache1 "a" plainTemplate {} = .ok (plainR1, plainCache1) :=
  claim_C8_amended litPlatform [] "a" plainTemplate {} plainR1 plainCache1 rfl
    (by decide) rfl

end Tfsm

